import Mathlib

/-!
Verification of the chatrxiv topic-divergence detection and conversation
segmentation engine, together with the web client's instant-search entry
point, against its documented behaviour.

The divergence engine itself (`src/divergence/` in the repository layout
described by `docs/divergence-detection-architecture.md`) is not present in
the checked-out sources; only its design documents and database schema are.
Definitions below that embed that engine carry a doc comment starting with
`Modelled from the spec:` and follow the documented design (module
structure, pseudocode, and SQL schema in
`docs/divergence-detection-architecture.md` and `docs/divergence_detection.md`).
The instant-search client is embedded directly from `src/web/lib/api.ts`.

Numeric scores are modelled as rationals (`ℚ`); embeddings as rational
vectors, assumed L2-normalized as the design documents state, so cosine
similarity is the dot product. Wall-clock fields (`created_at` and friends)
are omitted: no claim depends on them.
-/

/-- Modelled from the spec: clamping a raw metric into the documented `[0,1]`
score range (the design documents state every persisted score lies in 0-1;
the missing `src/divergence` code is taken to defend that range). -/
def clamp01 (x : ℚ) : ℚ := max 0 (min 1 x)

/-- Modelled from the spec: dot product of two embedding vectors. For the
L2-normalized vectors the documents prescribe, this is cosine similarity. -/
def dot (a b : List ℚ) : ℚ := (List.zipWith (· * ·) a b).sum

/-- Componentwise sum of two embedding vectors. -/
def vecAdd (a b : List ℚ) : List ℚ := List.zipWith (· + ·) a b

/-- Scaling of an embedding vector. -/
def vecScale (c : ℚ) (v : List ℚ) : List ℚ := v.map (fun x => c * x)

/-- Modelled from the spec: mean of a list of embedding vectors, used for the
anchor over the first `K` messages and for segment anchor embeddings. -/
def meanVec (vs : List (List ℚ)) : List ℚ :=
  match vs with
  | [] => []
  | v :: rest => vecScale (1 / ((v :: rest).length : ℚ)) (rest.foldl vecAdd v)

/-- Mean of a list of rationals; `0` on the empty list. -/
def meanQ (l : List ℚ) : ℚ := if l.length = 0 then 0 else l.sum / (l.length : ℚ)

/-- Modelled from the spec: one conversation turn as consumed from the
ingestion collaborator, with the embedding the (missing) embedding model
would assign to its text attached as data. -/
structure ChatMessage where
  role : String
  text : String
  embedding : List ℚ
deriving DecidableEq

/-- Modelled from the spec: the configurable knobs of the missing
`src/divergence` engine, with the documented defaults (anchor window 3,
drift threshold 0.35, vote threshold 2, split threshold 0.6). The
persistence window and maximum split-point count have no documented
default; representative values are fixed here. -/
structure SegmenterOptions where
  anchor_window : Nat := 3
  drift_threshold : ℚ := 35/100
  persistence_window : Nat := 2
  vote_threshold : Nat := 2
  split_threshold : ℚ := 6/10
  max_split_points : Nat := 5
deriving DecidableEq

/-- The documented default configuration. -/
def defaultOptions : SegmenterOptions := {}

/-- Modelled from the spec: the outcome of the missing BERTopic-based topic
analyzer for one conversation — normalized topic entropy, adjacent-topic
transition rate, and the message indices where the assigned topic changes. -/
structure TopicModelResult where
  topic_entropy : ℚ
  transition_rate : ℚ
  transitions : List Int
deriving DecidableEq

/-- Modelled from the spec: the outcome of the missing Claude-as-Judge
relevance classifier — mean relevance (normalized) and the message indices
where the judge suggested a segment break. -/
structure LlmJudgeResult where
  mean_relevance : ℚ
  suggested_breaks : List Int
deriving DecidableEq

/-- Modelled from the spec: the `Segment` dataclass of the missing
`src/divergence/models.py` (creation timestamp omitted). -/
structure Segment where
  id : String
  chat_id : Int
  start_message_idx : Int
  end_message_idx : Int
  anchor_embedding : List ℚ
  summary : String
  topic_label : String
  parent_segment_id : Option String
  divergence_score : ℚ
deriving DecidableEq

/-- Modelled from the spec: the `DivergenceReport` dataclass of the missing
`src/divergence/models.py`. Component scores are optional: absent when the
corresponding analyzer did not run. -/
structure DivergenceReport where
  chat_id : Int
  overall_score : ℚ
  embedding_drift_score : Option ℚ
  topic_entropy_score : Option ℚ
  topic_transition_score : Option ℚ
  llm_relevance_score : Option ℚ
  num_segments : Nat
  segments : List Segment
  should_split : Bool
  suggested_split_points : List Int
deriving DecidableEq

/-- Modelled from the spec: the anchor embedding — mean of the first
`anchor_window` message embeddings. -/
def anchorOf (opts : SegmenterOptions) (msgs : List ChatMessage) : List ℚ :=
  meanVec ((msgs.take opts.anchor_window).map (fun m => m.embedding))

/-- Modelled from the spec: cosine distance `1 - cos`, clamped into the
documented 0-1 metric range. -/
def cosineDistance (a b : List ℚ) : ℚ := clamp01 (1 - dot a b)

/-- Modelled from the spec: the drift curve — cosine distance from the anchor
for each message after the anchor window. -/
def driftCurve (opts : SegmenterOptions) (msgs : List ChatMessage) : List ℚ :=
  (msgs.drop opts.anchor_window).map (fun m => cosineDistance (anchorOf opts msgs) m.embedding)

/-- Modelled from the spec: the embedding-drift component score — mean drift
across the conversation. -/
def embeddingDriftScoreOf (opts : SegmenterOptions) (msgs : List ChatMessage) : ℚ :=
  meanQ (driftCurve opts msgs)

/-- Modelled from the spec: drift changepoints — message indices where drift
exceeds the threshold and stays above it for the persistence window. -/
def driftChangepoints (opts : SegmenterOptions) (msgs : List ChatMessage) : List Int :=
  ((List.range (driftCurve opts msgs).length).filter (fun i =>
      ((((driftCurve opts msgs).drop i).take opts.persistence_window).length
          == opts.persistence_window)
      && (((driftCurve opts msgs).drop i).take opts.persistence_window).all
          (fun d => decide (opts.drift_threshold < d)))).map
    (fun i => ((opts.anchor_window + i : Nat) : Int))

/-- Modelled from the spec: the drift curve annotated with absolute message
indices (the curve starts at index `anchor_window`). -/
def indexedDriftCurve (opts : SegmenterOptions) (msgs : List ChatMessage) : List (Int × ℚ) :=
  List.zip ((List.range (driftCurve opts msgs).length).map
      (fun i => ((opts.anchor_window + i : Nat) : Int)))
    (driftCurve opts msgs)

/-- Modelled from the spec: drift values restricted to the message span
`[a, b]`, used to recompute a segment's local score. -/
def spanDriftVals (opts : SegmenterOptions) (msgs : List ChatMessage) (a b : Int) : List ℚ :=
  ((indexedDriftCurve opts msgs).filter
      (fun p => decide (a ≤ p.1) && decide (p.1 ≤ b))).map (fun p => p.2)

/-- Modelled from the spec: a message's vote toward a boundary index. -/
def voteFromList (idx : Int) (l : List Int) (w : Nat) : Nat := if idx ∈ l then w else 0

/-- Modelled from the spec: accumulated votes for one message index —
embedding-drift changepoint 1 vote, topic-model transition 1 vote,
LLM-suggested break 2 votes; an analyzer that did not run contributes none. -/
def votesFor (idx : Int) (drift topic : List Int) (llm : Option (List Int)) : Nat :=
  voteFromList idx drift 1 + voteFromList idx topic 1 +
    (match llm with
     | some bs => voteFromList idx bs 2
     | none => 0)

/-- Modelled from the spec: the pool of changepoint candidates collected from
whichever analyzers ran. -/
def boundaryCandidates (drift topic : List Int) (llm : Option (List Int)) : List Int :=
  (drift ++ topic ++ llm.getD []).dedup

/-- Modelled from the spec: the ensemble's voting step — a candidate index is
confirmed as a segment boundary once its accumulated votes reach the
threshold. -/
def confirmedBoundaries (threshold : Nat) (drift topic : List Int)
    (llm : Option (List Int)) : List Int :=
  (boundaryCandidates drift topic llm).filter
    (fun idx => decide (threshold ≤ votesFor idx drift topic llm))

/-- Insert an integer into a strictly sorted list, keeping it strictly
sorted (duplicates collapse). -/
def insertSorted (x : Int) : List Int → List Int
  | [] => [x]
  | y :: ys => if x < y then x :: y :: ys else if x = y then y :: ys else y :: insertSorted x ys

/-- Sort a list of integers ascending, dropping duplicates. -/
def sortDedup (l : List Int) : List Int := l.foldr insertSorted []

/-- Modelled from the spec: one analyzer's contribution to the composite
score — a tagged `(score, weight, available)` triple, as the design notes
prescribe for combining optionally-missing analyzers. -/
structure ScoreContribution where
  score : ℚ
  weight : ℚ
  available : Bool
deriving DecidableEq

/-- Total weight of the available contributions. -/
def activeWeightSum (cs : List ScoreContribution) : ℚ :=
  ((cs.filter (fun c => c.available)).map (fun c => c.weight)).sum

/-- Weighted sum of the available contributions. -/
def activeWeightedSum (cs : List ScoreContribution) : ℚ :=
  ((cs.filter (fun c => c.available)).map (fun c => c.weight * c.score)).sum

/-- Modelled from the spec: composite of the available contributions with
weights renormalized to sum to 1. -/
def normalizedComposite (cs : List ScoreContribution) : ℚ :=
  if activeWeightSum cs = 0 then 0 else activeWeightedSum cs / activeWeightSum cs

/-- Modelled from the spec: the two documented weight sets of the composite
score — with LLM `{drift 0.35, entropy 0.20, transition 0.20, relevance
0.25}`, without LLM `{drift 0.45, entropy 0.30, transition 0.25}`. -/
def scoreContributions (drift entropy transition : ℚ) (relevance : Option ℚ) :
    List ScoreContribution :=
  match relevance with
  | some r => [⟨drift, 35/100, true⟩, ⟨entropy, 20/100, true⟩,
               ⟨transition, 20/100, true⟩, ⟨r, 25/100, true⟩]
  | none => [⟨drift, 45/100, true⟩, ⟨entropy, 30/100, true⟩, ⟨transition, 25/100, true⟩]

/-- Modelled from the spec: the composite `overall_score` computation of the
missing ensemble segmenter (`composite` in the architecture document). -/
def compositeScore (drift entropy transition : ℚ) (relevance : Option ℚ) : ℚ :=
  normalizedComposite (scoreContributions drift entropy transition relevance)

/-- Modelled from the spec: a segment's `divergence_score` — the composite
score recomputed locally across just that segment's span. -/
def localDivergenceScore (opts : SegmenterOptions) (msgs : List ChatMessage)
    (topic : Option TopicModelResult) (llm : Option LlmJudgeResult) (a b : Int) : ℚ :=
  compositeScore (meanQ (spanDriftVals opts msgs a b))
    (clamp01 ((topic.map (fun t => t.topic_entropy)).getD 0))
    (clamp01 ((topic.map (fun t => t.transition_rate)).getD 0))
    (llm.map (fun l => clamp01 l.mean_relevance))

/-- The messages whose index lies in the span `[a, b]`. -/
def spanMessages (msgs : List ChatMessage) (a b : Int) : List ChatMessage :=
  ((List.zip ((List.range msgs.length).map (fun i => (i : Int))) msgs).filter
      (fun p => decide (a ≤ p.1) && decide (p.1 ≤ b))).map (fun p => p.2)

/-- Modelled from the spec: materialization of one segment for the span
`[a, b]` — anchor embedding is the mean over the span, divergence score the
locally recomputed composite. -/
def mkSegment (opts : SegmenterOptions) (cid : Int) (msgs : List ChatMessage)
    (topic : Option TopicModelResult) (llm : Option LlmJudgeResult) (a b : Int) : Segment :=
  { id := toString cid ++ ":" ++ toString a
    chat_id := cid
    start_message_idx := a
    end_message_idx := b
    anchor_embedding := meanVec ((spanMessages msgs a b).map (fun m => m.embedding))
    summary := ""
    topic_label := ""
    parent_segment_id := none
    divergence_score := localDivergenceScore opts msgs topic llm a b }

/-- Modelled from the spec: turn a list of cut points `c0 < c1 < ... < ck`
into the segments `[c0, c1-1], [c1, c2-1], ..., [c(k-1), ck-1]`. -/
def segmentsFromCuts (f : Int → Int → Segment) : List Int → List Segment
  | a :: b :: rest => f a (b - 1) :: segmentsFromCuts f (b :: rest)
  | _ => []

/-- Modelled from the spec: confirmed boundaries sorted, deduplicated, and
restricted to the interior `(0, n)` of the conversation. -/
def interiorCuts (n : Int) (bs : List Int) : List Int :=
  (sortDedup bs).filter (fun b => decide (0 < b) && decide (b < n))

/-- Modelled from the spec: the per-conversation analysis routine
`compute(conversation_id, options) → DivergenceReport` of the missing
ensemble segmenter. A conversation shorter than the anchor window
short-circuits to a trivial single-segment report; otherwise drift
changepoints are computed from the embeddings, votes are collected together
with the topic model's transitions and the LLM judge's suggested breaks,
and confirmed boundaries partition the conversation into segments. -/
def compute (opts : SegmenterOptions) (cid : Int) (msgs : List ChatMessage)
    (topic : Option TopicModelResult) (llm : Option LlmJudgeResult) : DivergenceReport :=
  let n : Int := msgs.length
  let f := mkSegment opts cid msgs topic llm
  if msgs.length < opts.anchor_window then
    { chat_id := cid
      overall_score := 0
      embedding_drift_score := none
      topic_entropy_score := none
      topic_transition_score := none
      llm_relevance_score := none
      num_segments := 1
      segments := segmentsFromCuts f (0 :: ([] : List Int) ++ [n])
      should_split := false
      suggested_split_points := [] }
  else
    let ds := embeddingDriftScoreOf opts msgs
    let es := clamp01 ((topic.map (fun t => t.topic_entropy)).getD 0)
    let ts := clamp01 ((topic.map (fun t => t.transition_rate)).getD 0)
    let rs := llm.map (fun l => clamp01 l.mean_relevance)
    let confirmed := confirmedBoundaries opts.vote_threshold (driftChangepoints opts msgs)
      ((topic.map (fun t => t.transitions)).getD []) (llm.map (fun l => l.suggested_breaks))
    let splits := interiorCuts n confirmed
    let segs := segmentsFromCuts f (0 :: splits ++ [n])
    let overall := compositeScore ds es ts rs
    { chat_id := cid
      overall_score := overall
      embedding_drift_score := some ds
      topic_entropy_score := topic.map (fun t => clamp01 t.topic_entropy)
      topic_transition_score := topic.map (fun t => clamp01 t.transition_rate)
      llm_relevance_score := rs
      num_segments := segs.length
      segments := segs
      should_split := decide (opts.split_threshold < overall)
        || decide (opts.max_split_points < splits.length)
      suggested_split_points := splits }


/-! ### Persistence: rows, cascade semantics, processing queue -/

/-- Modelled from the spec: a row of the `segment_links` table. -/
structure SegmentLinkRow where
  id : String
  source_segment_id : String
  target_segment_id : String
  link_type : String
  similarity_score : ℚ
deriving DecidableEq

/-- Modelled from the spec: a row of the `segment_embeddings` table. -/
structure SegmentEmbeddingRow where
  segment_id : String
  embedding : List ℚ
deriving DecidableEq

/-- Modelled from the spec: the status column of the processing queue. -/
inductive QueueStatus where
  | pending
  | processing
  | completed
  | failed
  | cancelled
deriving DecidableEq

/-- Modelled from the spec: a row of `divergence_processing_queue`
(`chat_id` is the primary key; timestamps omitted). -/
structure QueueEntry where
  chat_id : Int
  status : QueueStatus
  priority : Int
  error_message : Option String
deriving DecidableEq

/-- Modelled from the spec: the relations owned by the divergence core,
together with the owning `chats` relation. -/
structure DivergenceDb where
  chats : List Int
  segments : List Segment
  segment_embeddings : List SegmentEmbeddingRow
  segment_links : List SegmentLinkRow
  divergence_scores : List DivergenceReport
  processing_queue : List QueueEntry
deriving DecidableEq

/-- Modelled from the spec: deleting a conversation, following the SQL schema
in the architecture document. `segments`, `divergence_scores` and
`divergence_processing_queue` declare `ON DELETE CASCADE` from `chats`, and
`segment_embeddings` cascades from `segments`; `segment_links` declares
plain foreign keys on `segments` with no cascade clause, so its rows are
not deleted with the conversation. -/
def deleteChat (db : DivergenceDb) (cid : Int) : DivergenceDb :=
  let removedSegIds := (db.segments.filter (fun s => s.chat_id == cid)).map (fun s => s.id)
  { chats := db.chats.filter (fun c => c != cid)
    segments := db.segments.filter (fun s => s.chat_id != cid)
    segment_embeddings := db.segment_embeddings.filter
      (fun e => !(removedSegIds.contains e.segment_id))
    segment_links := db.segment_links
    divergence_scores := db.divergence_scores.filter (fun r => r.chat_id != cid)
    processing_queue := db.processing_queue.filter (fun q => q.chat_id != cid) }

/-- Modelled from the spec: enqueue a conversation for processing. The queue
is deduplicated by conversation id (`chat_id` primary key): if an entry
already exists, a higher-priority enqueue bumps a pending entry's priority
and any other duplicate enqueue is coalesced into a no-op; otherwise a
fresh pending entry is appended. -/
def enqueueChat (q : List QueueEntry) (cid : Int) (prio : Int) : List QueueEntry :=
  if q.any (fun e => e.chat_id == cid) then
    q.map (fun e =>
      if e.chat_id == cid && decide (e.status = QueueStatus.pending)
          && decide (e.priority < prio) then
        { e with priority := prio }
      else e)
  else q ++ [⟨cid, QueueStatus.pending, prio, none⟩]

/-- Modelled from the spec: a worker claims a conversation's pending entry
(status `pending → processing`). -/
def startEntry (q : List QueueEntry) (cid : Int) : List QueueEntry :=
  q.map (fun e =>
    if e.chat_id == cid && decide (e.status = QueueStatus.pending) then
      { e with status := QueueStatus.processing }
    else e)

/-- Modelled from the spec: a conversation's processing entry completes. -/
def completeEntry (q : List QueueEntry) (cid : Int) : List QueueEntry :=
  q.map (fun e =>
    if e.chat_id == cid && decide (e.status = QueueStatus.processing) then
      { e with status := QueueStatus.completed }
    else e)

/-- Modelled from the spec: a conversation's processing entry fails with a
recorded reason. -/
def failEntry (q : List QueueEntry) (cid : Int) (msg : String) : List QueueEntry :=
  q.map (fun e =>
    if e.chat_id == cid && decide (e.status = QueueStatus.processing) then
      { e with status := QueueStatus.failed, error_message := some msg }
    else e)

/-- Modelled from the spec: a pending entry is cancelled before a worker
claims it. -/
def cancelEntry (q : List QueueEntry) (cid : Int) : List QueueEntry :=
  q.map (fun e =>
    if e.chat_id == cid && decide (e.status = QueueStatus.pending) then
      { e with status := QueueStatus.cancelled }
    else e)

/-- Modelled from the spec: queue states reachable from the empty queue
through the processing pipeline's operations (the pipeline exclusively
creates and mutates queue rows). -/
inductive QueueReachable : List QueueEntry → Prop where
  | empty : QueueReachable []
  | enqueue (q : List QueueEntry) (cid prio : Int) :
      QueueReachable q → QueueReachable (enqueueChat q cid prio)
  | start (q : List QueueEntry) (cid : Int) :
      QueueReachable q → QueueReachable (startEntry q cid)
  | complete (q : List QueueEntry) (cid : Int) :
      QueueReachable q → QueueReachable (completeEntry q cid)
  | fail (q : List QueueEntry) (cid : Int) (msg : String) :
      QueueReachable q → QueueReachable (failEntry q cid msg)
  | cancel (q : List QueueEntry) (cid : Int) :
      QueueReachable q → QueueReachable (cancelEntry q cid)

/-- Number of queue entries for one conversation. -/
def entryCount (q : List QueueEntry) (cid : Int) : Nat :=
  (q.filter (fun e => e.chat_id == cid)).length

/-- Number of queue entries for one conversation that are in `processing`
state. -/
def processingCount (q : List QueueEntry) (cid : Int) : Nat :=
  (q.filter (fun e => e.chat_id == cid
      && decide (e.status = QueueStatus.processing))).length

/-! ### Batch processor -/

/-- A conversation as consumed from the ingestion collaborator. -/
structure Conversation where
  id : Int
  messages : List ChatMessage
deriving DecidableEq

/-- Modelled from the spec: the store the batch processor reads and writes —
conversations plus the persisted segments and divergence reports. -/
structure ProcessorStore where
  conversations : List Conversation
  segments : List Segment
  reports : List DivergenceReport
deriving DecidableEq

/-- Modelled from the spec: atomically replace a conversation's persisted
segments and report with a freshly computed set. -/
def saveAnalysis (s : ProcessorStore) (cid : Int) (r : DivergenceReport) : ProcessorStore :=
  { conversations := s.conversations
    segments := s.segments.filter (fun sg => sg.chat_id != cid) ++ r.segments
    reports := s.reports.filter (fun rp => rp.chat_id != cid) ++ [r] }

/-- Whether a conversation already has a persisted divergence report. -/
def hasReport (s : ProcessorStore) (cid : Int) : Bool :=
  s.reports.any (fun r => r.chat_id == cid)

/-- Modelled from the spec: the shared per-conversation analysis routine of
the processor; the LLM judge is disabled for batch processing as the
documents advise, and the (missing) topic model is not consulted. -/
def processConversation (opts : SegmenterOptions) (s : ProcessorStore)
    (c : Conversation) : ProcessorStore :=
  saveAnalysis s c.id (compute opts c.id c.messages none none)

/-- Modelled from the spec: `backfill_all(batch_size, max_chats,
skip_existing)`. Iterates the conversations lacking a report (or all of
them when `skipExisting` is false), truncated by `maxChats`, and processes
each in turn; `batchSize` only chunks the work for statistics and does not
affect the resulting store. -/
def backfill_all (opts : SegmenterOptions) (s : ProcessorStore) (batchSize : Nat)
    (maxChats : Option Nat) (skipExisting : Bool) : ProcessorStore :=
  let pending := if skipExisting then
      s.conversations.filter (fun c => !hasReport s c.id)
    else s.conversations
  let todo := match maxChats with
    | some m => pending.take m
    | none => pending
  todo.foldl (processConversation opts) s

/-! ### Cross-chat linking -/

/-- Modelled from the spec: cosine similarity of L2-normalized embeddings. -/
def cosineSimilarity (a b : List ℚ) : ℚ := dot a b

/-- Maximum of a list of rationals, `0` on the empty list. -/
def maxQ (l : List ℚ) : ℚ := l.foldr max 0

/-- Modelled from the spec: best anchor-embedding similarity between any
segment of the query conversation and any segment of a candidate
conversation. -/
def chatSimilarity (segs : List Segment) (cid oid : Int) : ℚ :=
  maxQ ((segs.filter (fun s => s.chat_id == cid)).map (fun a =>
    maxQ ((segs.filter (fun s => s.chat_id == oid)).map (fun b =>
      cosineSimilarity a.anchor_embedding b.anchor_embedding))))

/-- Insert into a list sorted non-increasingly by similarity. -/
def insertBySim (x : Int × ℚ) : List (Int × ℚ) → List (Int × ℚ)
  | [] => [x]
  | y :: ys => if decide (y.2 ≤ x.2) then x :: y :: ys else y :: insertBySim x ys

/-- Sort candidate conversations non-increasingly by similarity. -/
def sortBySimDesc : List (Int × ℚ) → List (Int × ℚ)
  | [] => []
  | x :: xs => insertBySim x (sortBySimDesc xs)

/-- Modelled from the spec: `find_related_chats(chat_id, min_similarity,
limit)` — brute-force scan of every other conversation's persisted segment
anchors, keeping those whose similarity meets the floor, ranked descending
by similarity and truncated to `limit`. -/
def find_related_chats (segs : List Segment) (cid : Int) (minSimilarity : ℚ)
    (limit : Nat) : List (Int × ℚ) :=
  let otherIds := ((segs.filter (fun s => s.chat_id != cid)).map (fun s => s.chat_id)).dedup
  let scored := otherIds.map (fun oid => (oid, chatSimilarity segs cid oid))
  let kept := scored.filter (fun p => decide (minSimilarity ≤ p.2))
  (sortBySimDesc kept).take limit

/-! ### Web client instant search (`src/web/lib/api.ts`) -/

/-- The `ChatSummary` shape of `src/web/lib/api.ts`. -/
structure ChatSummary where
  id : Int
  composer_id : Option String
  title : Option String
  mode : Option String
  created_at : Option String
  source : Option String
  messages_count : Nat
  workspace_hash : Option String
  workspace_path : Option String
  tags : List String
deriving DecidableEq

/-- The `SearchResult` shape of `src/web/lib/api.ts`. -/
structure SearchResult extends ChatSummary where
  snippet : Option String
deriving DecidableEq

/-- The `InstantSearchResponse` shape of `src/web/lib/api.ts`. -/
structure InstantSearchResponse where
  query : String
  results : List SearchResult
  count : Nat
deriving DecidableEq

/-- `instantSearch` from `src/web/lib/api.ts`: a query shorter than 2
characters returns `{query, results: [], count: 0}` immediately; otherwise
the backend is contacted. The `fetch` round-trip is modelled as a function
argument that may fail (the thrown `Error` on a non-ok response), and the
returned flag records whether the backend was invoked at all. -/
def instantSearch (backend : String → Nat → Except String InstantSearchResponse)
    (query : String) (limit : Nat) : Except String InstantSearchResponse × Bool :=
  if query.length < 2 then (Except.ok ⟨query, [], 0⟩, false)
  else (backend query limit, true)

/-! ### Composite-score lemmas -/

/-- With the LLM available, the composite is exactly the documented
`0.35/0.20/0.20/0.25` weighted sum. -/
lemma compositeScore_some (d e t r : ℚ) :
    compositeScore d e t (some r) = 35/100*d + 20/100*e + 20/100*t + 25/100*r := by
  simp only [compositeScore, scoreContributions, normalizedComposite, activeWeightSum,
    activeWeightedSum, List.filter, List.map, List.sum_cons, List.sum_nil]
  norm_num
  ring

/-- Without the LLM, the composite is exactly the documented
`0.45/0.30/0.25` weighted sum. -/
lemma compositeScore_none (d e t : ℚ) :
    compositeScore d e t none = 45/100*d + 30/100*e + 25/100*t := by
  simp only [compositeScore, scoreContributions, normalizedComposite, activeWeightSum,
    activeWeightedSum, List.filter, List.map, List.sum_cons, List.sum_nil]
  norm_num
  ring

/-- The active weights sum to 1 when the LLM ran. -/
lemma activeWeightSum_some (d e t r : ℚ) :
    activeWeightSum (scoreContributions d e t (some r)) = 1 := by
  simp only [scoreContributions, activeWeightSum, List.filter, List.map,
    List.sum_cons, List.sum_nil]
  norm_num

/-- The active weights sum to 1 when the LLM did not run. -/
lemma activeWeightSum_none (d e t : ℚ) :
    activeWeightSum (scoreContributions d e t none) = 1 := by
  simp only [scoreContributions, activeWeightSum, List.filter, List.map,
    List.sum_cons, List.sum_nil]
  norm_num

/-- C2: on a full analysis run, `overall_score` is the documented weighted
sum of the persisted component scores — `0.35/0.20/0.20/0.25` when all four
analyzers produced a score, `0.45/0.30/0.25` when the LLM did not run —
and in each case the weights applied to the available contributions sum
to 1. -/
theorem claim_C2 (opts : SegmenterOptions) (cid : Int) (msgs : List ChatMessage)
    (topic : Option TopicModelResult) (llm : Option LlmJudgeResult)
    (hn : opts.anchor_window ≤ msgs.length) :
    (∀ t l, topic = some t → llm = some l →
      (compute opts cid msgs topic llm).overall_score =
        35/100 * ((compute opts cid msgs topic llm).embedding_drift_score.getD 0)
        + 20/100 * ((compute opts cid msgs topic llm).topic_entropy_score.getD 0)
        + 20/100 * ((compute opts cid msgs topic llm).topic_transition_score.getD 0)
        + 25/100 * ((compute opts cid msgs topic llm).llm_relevance_score.getD 0)) ∧
    (∀ t, topic = some t → llm = none →
      (compute opts cid msgs topic llm).overall_score =
        45/100 * ((compute opts cid msgs topic llm).embedding_drift_score.getD 0)
        + 30/100 * ((compute opts cid msgs topic llm).topic_entropy_score.getD 0)
        + 25/100 * ((compute opts cid msgs topic llm).topic_transition_score.getD 0)) ∧
    (∀ d e t r : ℚ, activeWeightSum (scoreContributions d e t (some r)) = 1 ∧
      activeWeightSum (scoreContributions d e t none) = 1) := by
  have hlt : ¬ msgs.length < opts.anchor_window := not_lt.mpr hn
  refine ⟨?_, ?_, fun d e t r => ⟨activeWeightSum_some d e t r, activeWeightSum_none d e t⟩⟩
  · rintro t l rfl rfl
    simp [compute, hlt, compositeScore_some]
  · rintro t rfl rfl
    simp [compute, hlt, compositeScore_none]

/-- A small concrete three-message conversation used to instantiate proved
theorems at explicit inputs. -/
def exMsgs : List ChatMessage :=
  [⟨"user", "q", [1]⟩, ⟨"assistant", "a", [1]⟩, ⟨"user", "q2", [1]⟩]

/-- A concrete topic-analyzer outcome. -/
def exTopic : TopicModelResult := ⟨1/2, 1/2, [5]⟩

/-- A concrete LLM-judge outcome. -/
def exLlm : LlmJudgeResult := ⟨1/2, [5]⟩

/-- Witness for C2 at a concrete conversation and analyzer outcomes. -/
theorem claim_C2_witness :
    ((compute defaultOptions 1 exMsgs (some exTopic) (some exLlm)).overall_score =
      35/100 * ((compute defaultOptions 1 exMsgs (some exTopic) (some exLlm)).embedding_drift_score.getD 0)
      + 20/100 * ((compute defaultOptions 1 exMsgs (some exTopic) (some exLlm)).topic_entropy_score.getD 0)
      + 20/100 * ((compute defaultOptions 1 exMsgs (some exTopic) (some exLlm)).topic_transition_score.getD 0)
      + 25/100 * ((compute defaultOptions 1 exMsgs (some exTopic) (some exLlm)).llm_relevance_score.getD 0)) ∧
    ((compute defaultOptions 1 exMsgs (some exTopic) none).overall_score =
      45/100 * ((compute defaultOptions 1 exMsgs (some exTopic) none).embedding_drift_score.getD 0)
      + 30/100 * ((compute defaultOptions 1 exMsgs (some exTopic) none).topic_entropy_score.getD 0)
      + 25/100 * ((compute defaultOptions 1 exMsgs (some exTopic) none).topic_transition_score.getD 0)) :=
  ⟨(claim_C2 defaultOptions 1 exMsgs (some exTopic) (some exLlm) (by decide)).1 exTopic exLlm rfl rfl,
   (claim_C2 defaultOptions 1 exMsgs (some exTopic) none (by decide)).2.1 exTopic rfl rfl⟩

/-- C3: a conversation shorter than the anchor window short-circuits to a
trivial report — `overall_score = 0`, exactly one segment, and
`should_split = false` — rather than raising. -/
theorem claim_C3 (opts : SegmenterOptions) (cid : Int) (msgs : List ChatMessage)
    (topic : Option TopicModelResult) (llm : Option LlmJudgeResult)
    (h : msgs.length < opts.anchor_window) :
    (compute opts cid msgs topic llm).overall_score = 0 ∧
    (compute opts cid msgs topic llm).num_segments = 1 ∧
    (compute opts cid msgs topic llm).segments.length = 1 ∧
    (compute opts cid msgs topic llm).should_split = false := by
  simp [compute, h, segmentsFromCuts]

/-- Witness for C3 at the empty conversation. -/
theorem claim_C3_witness :
    (compute defaultOptions 1 [] none none).overall_score = 0 ∧
    (compute defaultOptions 1 [] none none).num_segments = 1 ∧
    (compute defaultOptions 1 [] none none).segments.length = 1 ∧
    (compute defaultOptions 1 [] none none).should_split = false :=
  claim_C3 defaultOptions 1 [] none none (by decide)

/-! ### Voting lemmas -/

/-- Membership in the candidate pool. -/
lemma mem_boundaryCandidates (idx : Int) (drift topic : List Int) (llm : Option (List Int)) :
    idx ∈ boundaryCandidates drift topic llm ↔
      idx ∈ drift ∨ idx ∈ topic ∨ idx ∈ llm.getD [] := by
  simp [boundaryCandidates]

/-- An index no analyzer nominated gets zero votes. -/
lemma votesFor_eq_zero (idx : Int) (drift topic : List Int) (llm : Option (List Int))
    (h1 : idx ∉ drift) (h2 : idx ∉ topic) (h3 : idx ∉ llm.getD []) :
    votesFor idx drift topic llm = 0 := by
  cases llm with
  | none => simp [votesFor, voteFromList, h1, h2]
  | some bs =>
    simp only [Option.getD] at h3
    simp [votesFor, voteFromList, h1, h2, h3]

/-- C4: under the default vote threshold 2, an index is confirmed as a
segment boundary exactly when its accumulated votes (drift changepoint 1,
topic transition 1, LLM break 2) reach 2 — so an LLM-suggested break alone
confirms a boundary, while a drift changepoint alone or a topic transition
alone does not. -/
theorem claim_C4 (idx : Int) (drift topic : List Int) (llm : Option (List Int)) :
    defaultOptions.vote_threshold = 2 ∧
    (idx ∈ confirmedBoundaries defaultOptions.vote_threshold drift topic llm ↔
      2 ≤ votesFor idx drift topic llm) ∧
    (∀ bs, llm = some bs → idx ∈ bs →
      idx ∈ confirmedBoundaries defaultOptions.vote_threshold drift topic llm) ∧
    (idx ∈ drift → idx ∉ topic → (∀ bs, llm = some bs → idx ∉ bs) →
      idx ∉ confirmedBoundaries defaultOptions.vote_threshold drift topic llm) ∧
    (idx ∉ drift → idx ∈ topic → (∀ bs, llm = some bs → idx ∉ bs) →
      idx ∉ confirmedBoundaries defaultOptions.vote_threshold drift topic llm) := by
  have hthr : defaultOptions.vote_threshold = 2 := rfl
  have hiff : idx ∈ confirmedBoundaries defaultOptions.vote_threshold drift topic llm ↔
      2 ≤ votesFor idx drift topic llm := by
    rw [hthr]
    constructor
    · intro h
      have := (List.mem_filter.mp h).2
      simpa using this
    · intro h
      refine List.mem_filter.mpr ⟨?_, by simpa using h⟩
      rw [mem_boundaryCandidates]
      by_contra hno
      push_neg at hno
      obtain ⟨hn1, hn2, hn3⟩ := hno
      rw [votesFor_eq_zero idx drift topic llm hn1 hn2 hn3] at h
      omega
  refine ⟨hthr, hiff, ?_, ?_, ?_⟩
  · intro bs hbs hmem
    apply hiff.mpr
    subst hbs
    simp only [votesFor, voteFromList, hmem, if_pos]
    omega
  · intro h1 h2 h3
    intro hmem
    have hv := hiff.mp hmem
    have hz : votesFor idx drift topic llm = 1 := by
      cases llm with
      | none => simp [votesFor, voteFromList, h1, h2]
      | some bs => simp [votesFor, voteFromList, h1, h2, h3 bs rfl]
    omega
  · intro h1 h2 h3
    intro hmem
    have hv := hiff.mp hmem
    have hz : votesFor idx drift topic llm = 1 := by
      cases llm with
      | none => simp [votesFor, voteFromList, h1, h2]
      | some bs => simp [votesFor, voteFromList, h1, h2, h3 bs rfl]
    omega

/-- Witness for C4: an LLM-suggested break alone confirms index 5, and a
drift changepoint alone does not confirm index 6. -/
theorem claim_C4_witness :
    (5 : Int) ∈ confirmedBoundaries defaultOptions.vote_threshold [] [] (some [5]) ∧
    (6 : Int) ∉ confirmedBoundaries defaultOptions.vote_threshold [6] [] (some []) :=
  ⟨(claim_C4 5 [] [] (some [5])).2.2.1 [5] rfl (by decide),
   (claim_C4 6 [6] [] (some [])).2.2.2.1 (by decide) (by decide)
     (fun bs hbs => by injection hbs with h; rw [← h]; decide)⟩

/-- C10: `instantSearch` returns the empty result for a query shorter than
2 characters without invoking the backend, and invokes the backend exactly
for queries of length at least 2. -/
theorem claim_C10 (backend : String → Nat → Except String InstantSearchResponse)
    (query : String) (limit : Nat) :
    (query.length < 2 →
      instantSearch backend query limit = (Except.ok ⟨query, [], 0⟩, false)) ∧
    ((instantSearch backend query limit).2 = true ↔ 2 ≤ query.length) := by
  constructor
  · intro h
    simp [instantSearch, h]
  · constructor
    · intro h
      by_contra hlt
      push_neg at hlt
      simp [instantSearch, hlt] at h
    · intro h
      have hnl : ¬ query.length < 2 := by omega
      simp [instantSearch, hnl]

/-- Witness for C10 at the one-character query `"a"`. -/
theorem claim_C10_witness :
    instantSearch (fun q l => Except.ok ⟨q, [], l⟩) "a" 10 =
      (Except.ok ⟨"a", [], 0⟩, false) :=
  (claim_C10 (fun q l => Except.ok ⟨q, [], l⟩) "a" 10).1 (by decide)

/-! ### Cascade deletion (C6) -/

/-- Filtering keeps only rows satisfying the predicate. -/
lemma all_filter_self {α : Type} (l : List α) (p : α → Bool) :
    (l.filter p).all p = true := by
  rw [List.all_eq_true]
  intro x hx
  exact (List.mem_filter.mp hx).2

/-- A concrete database: one conversation with two segments and one link
between them. -/
def exDb : DivergenceDb :=
  { chats := [1]
    segments := [⟨"s1", 1, 0, 4, [], "", "", none, 0⟩, ⟨"s2", 1, 5, 9, [], "", "", none, 0⟩]
    segment_embeddings := []
    segment_links := [⟨"l1", "s1", "s2", "continues", 0⟩]
    divergence_scores := []
    processing_queue := [] }

/-- Counterexample to C6 as stated: deleting conversation 1 removes both of
its segments, but the `segment_links` row survives (its foreign keys carry
no `ON DELETE CASCADE`), leaving a link that references deleted segments. -/
theorem claim_C6_counterexample :
    (deleteChat exDb 1).segments = [] ∧
    (deleteChat exDb 1).segment_links.length = 1 ∧
    ((deleteChat exDb 1).segment_links.any (fun l =>
      !((deleteChat exDb 1).segments.any (fun s => s.id == l.source_segment_id)))) = true := by
  refine ⟨?_, rfl, ?_⟩ <;> decide

/-- C6 (amended): deleting a conversation cascades to its `segments`,
`divergence_scores` and `divergence_processing_queue` rows (and to the
deleted segments' `segment_embeddings`), but `segment_links` rows are not
deleted — their foreign keys carry no cascade clause — so links may be left
referencing deleted segments. -/
theorem claim_C6 (db : DivergenceDb) (cid : Int) :
    ((deleteChat db cid).segments.all (fun s => s.chat_id != cid)) = true ∧
    ((deleteChat db cid).divergence_scores.all (fun r => r.chat_id != cid)) = true ∧
    ((deleteChat db cid).processing_queue.all (fun q => q.chat_id != cid)) = true ∧
    ((deleteChat db cid).chats.all (fun c => c != cid)) = true ∧
    ((deleteChat db cid).segment_embeddings.all (fun e =>
      !(((db.segments.filter (fun s => s.chat_id == cid)).map
          (fun s => s.id)).contains e.segment_id))) = true ∧
    (deleteChat db cid).segment_links = db.segment_links := by
  refine ⟨?_, ?_, ?_, ?_, ?_, rfl⟩ <;>
    simp only [deleteChat] <;> exact all_filter_self _ _

/-! ### Processing-queue invariant (C7) -/

/-- A chat-id-preserving rewrite of the queue preserves per-conversation
entry counts. -/
lemma entryCount_map (q : List QueueEntry) (f : QueueEntry → QueueEntry)
    (hf : ∀ e, (f e).chat_id = e.chat_id) (cid : Int) :
    entryCount (q.map f) cid = entryCount q cid := by
  induction q with
  | nil => rfl
  | cons e rest ih =>
    simp only [entryCount, List.map_cons, List.filter] at *
    rw [hf e]
    cases h : (e.chat_id == cid) <;> simp [ih]

/-- Appending one entry adds to the count only for its own conversation. -/
lemma entryCount_append_one (q : List QueueEntry) (e : QueueEntry) (cid : Int) :
    entryCount (q ++ [e]) cid =
      entryCount q cid + (if e.chat_id == cid then 1 else 0) := by
  simp only [entryCount, List.filter_append]
  cases h : (e.chat_id == cid) <;> simp [List.filter, h]

/-- If no entry exists for a conversation, its count is zero. -/
lemma entryCount_eq_zero (q : List QueueEntry) (cid : Int)
    (h : q.any (fun e => e.chat_id == cid) = false) :
    entryCount q cid = 0 := by
  simp only [entryCount, List.length_eq_zero]
  rw [List.filter_eq_nil_iff]
  intro e he
  have := (List.any_eq_false).mp h e he
  simpa using this

/-- C7: in every queue state the processing pipeline can reach, each
conversation has at most one queue entry — in particular at most one entry
in `processing` state, so no two processing tasks for one conversation are
ever in flight together. -/
theorem claim_C7 (q : List QueueEntry) (h : QueueReachable q) (cid : Int) :
    entryCount q cid ≤ 1 ∧ processingCount q cid ≤ 1 := by
  have key : ∀ c : Int, entryCount q c ≤ 1 := by
    induction h with
    | empty => intro c; simp [entryCount]
    | enqueue q' cid' prio _ ih =>
      intro c
      unfold enqueueChat
      by_cases hc : q'.any (fun e => e.chat_id == cid') = true
      · rw [if_pos hc]
        rw [entryCount_map]
        · exact ih c
        · intro e
          by_cases hcond : (e.chat_id == cid' && decide (e.status = QueueStatus.pending)
              && decide (e.priority < prio)) = true
          · simp [hcond]
          · simp [hcond]
      · rw [if_neg hc]
        rw [entryCount_append_one]
        by_cases hcc : ((cid' : Int) == c) = true
        · have h0 : entryCount q' c = 0 := by
            apply entryCount_eq_zero
            rw [eq_of_beq hcc] at hc
            exact Bool.eq_false_iff.mpr hc
          simp only [h0, hcc]
          simp
        · have : ((⟨cid', QueueStatus.pending, prio, none⟩ : QueueEntry).chat_id == c) = false :=
            Bool.eq_false_iff.mpr hcc
          simp only [this]
          simpa using ih c
    | start q' cid' _ ih =>
      intro c
      unfold startEntry
      rw [entryCount_map]
      · exact ih c
      · intro e
        by_cases hcond : (e.chat_id == cid'
            && decide (e.status = QueueStatus.pending)) = true
        · simp [hcond]
        · simp [hcond]
    | complete q' cid' _ ih =>
      intro c
      unfold completeEntry
      rw [entryCount_map]
      · exact ih c
      · intro e
        by_cases hcond : (e.chat_id == cid'
            && decide (e.status = QueueStatus.processing)) = true
        · simp [hcond]
        · simp [hcond]
    | fail q' cid' msg _ ih =>
      intro c
      unfold failEntry
      rw [entryCount_map]
      · exact ih c
      · intro e
        by_cases hcond : (e.chat_id == cid'
            && decide (e.status = QueueStatus.processing)) = true
        · simp [hcond]
        · simp [hcond]
    | cancel q' cid' _ ih =>
      intro c
      unfold cancelEntry
      rw [entryCount_map]
      · exact ih c
      · intro e
        by_cases hcond : (e.chat_id == cid'
            && decide (e.status = QueueStatus.pending)) = true
        · simp [hcond]
        · simp [hcond]
  refine ⟨key cid, le_trans ?_ (key cid)⟩
  simp only [processingCount, entryCount]
  clear key h
  induction q with
  | nil => simp
  | cons e rest ih =>
    by_cases hq : (e.chat_id == cid) = true
    · by_cases hs : (decide (e.status = QueueStatus.processing)) = true
      · simp only [List.filter_cons, hq, hs]
        simp
        omega
      · have hs' : (decide (e.status = QueueStatus.processing)) = false := by simpa using hs
        simp only [List.filter_cons, hq, hs']
        simp
        omega
    · have hq' : (e.chat_id == cid) = false := by simpa using hq
      simp only [List.filter_cons, hq']
      simp
      omega

/-- Witness for C7 at a queue reached by one enqueue. -/
theorem claim_C7_witness :
    entryCount (enqueueChat [] 7 5) 7 ≤ 1 ∧ processingCount (enqueueChat [] 7 5) 7 ≤ 1 :=
  claim_C7 (enqueueChat [] 7 5) (QueueReachable.enqueue [] 7 5 QueueReachable.empty) 7

/-! ### Backfill idempotence (C9) -/

/-- Processing one conversation rewrites only segments and reports. -/
lemma processConversation_conversations (opts : SegmenterOptions) (s : ProcessorStore)
    (c : Conversation) :
    (processConversation opts s c).conversations = s.conversations := rfl

/-- Batch processing never changes the conversation list. -/
lemma foldl_process_conversations (opts : SegmenterOptions) :
    ∀ (L : List Conversation) (s : ProcessorStore),
      (L.foldl (processConversation opts) s).conversations = s.conversations := by
  intro L
  induction L with
  | nil => intro s; rfl
  | cons c L' ih => intro s; rw [List.foldl_cons, ih, processConversation_conversations]

/-- A computed report carries the conversation id it was computed for. -/
lemma compute_chat_id (opts : SegmenterOptions) (cid : Int) (msgs : List ChatMessage)
    (topic : Option TopicModelResult) (llm : Option LlmJudgeResult) :
    (compute opts cid msgs topic llm).chat_id = cid := by
  by_cases h : msgs.length < opts.anchor_window <;> simp [compute, h]

/-- After processing a conversation, a report is present for every
conversation that already had one and for the processed conversation. -/
lemma hasReport_process (opts : SegmenterOptions) (s : ProcessorStore)
    (c : Conversation) (cid : Int)
    (h : hasReport s cid = true ∨ c.id = cid) :
    hasReport (processConversation opts s c) cid = true := by
  rcases h with h | h
  · by_cases hc : cid = c.id
    · subst hc
      simp only [processConversation, saveAnalysis, hasReport, List.any_append,
        List.any_cons, List.any_nil, Bool.or_eq_true]
      right
      simp [compute_chat_id]
    · obtain ⟨r, hr, hrc⟩ := List.any_eq_true.mp h
      simp only [processConversation, saveAnalysis, hasReport, List.any_append,
        Bool.or_eq_true]
      left
      refine List.any_eq_true.mpr ⟨r, List.mem_filter.mpr ⟨hr, ?_⟩, hrc⟩
      have : r.chat_id = cid := by simpa using hrc
      simp [this, hc]
  · subst h
    simp only [processConversation, saveAnalysis, hasReport, List.any_append,
      List.any_cons, List.any_nil, Bool.or_eq_true]
    right
    simp [compute_chat_id]

/-- After a batch run, a report is present for every conversation that
already had one and for every conversation in the batch. -/
lemma hasReport_foldl (opts : SegmenterOptions) :
    ∀ (L : List Conversation) (s : ProcessorStore) (cid : Int),
      (hasReport s cid = true ∨ ∃ c ∈ L, c.id = cid) →
      hasReport (L.foldl (processConversation opts) s) cid = true := by
  intro L
  induction L with
  | nil =>
    intro s cid h
    rcases h with h | h
    · exact h
    · obtain ⟨c, hc, _⟩ := h
      exact absurd hc (List.not_mem_nil c)
  | cons c L' ih =>
    intro s cid h
    rw [List.foldl_cons]
    apply ih
    rcases h with h | h
    · exact Or.inl (hasReport_process opts s c cid (Or.inl h))
    · obtain ⟨c', hc', hid⟩ := h
      rcases List.mem_cons.mp hc' with h1 | h1
      · subst h1
        exact Or.inl (hasReport_process opts s c' cid (Or.inr hid))
      · exact Or.inr ⟨c', h1, hid⟩

/-- C9 (amended): running `backfill_all` with `skip_existing = true` and no
`max_chats` cap twice in succession leaves the persisted segments and
reports unchanged the second time; when a `max_chats` cap cut the first run
short, the second run resumes with the remaining conversations instead of
being a no-op (see the counterexample). -/
theorem claim_C9 (opts : SegmenterOptions) (s : ProcessorStore) (batchSize : Nat) :
    (backfill_all opts (backfill_all opts s batchSize none true) batchSize none true).segments
      = (backfill_all opts s batchSize none true).segments ∧
    (backfill_all opts (backfill_all opts s batchSize none true) batchSize none true).reports
      = (backfill_all opts s batchSize none true).reports := by
  have hfix : backfill_all opts (backfill_all opts s batchSize none true) batchSize none true
      = backfill_all opts s batchSize none true := by
    have hall : ∀ c ∈ (backfill_all opts s batchSize none true).conversations,
        hasReport (backfill_all opts s batchSize none true) c.id = true := by
      intro c hc
      have hc' : c ∈ s.conversations := by
        rw [backfill_all, foldl_process_conversations] at hc
        exact hc
      unfold backfill_all
      apply hasReport_foldl
      by_cases h : hasReport s c.id = true
      · exact Or.inl h
      · refine Or.inr ⟨c, ?_, rfl⟩
        simp only [if_true]
        refine List.mem_filter.mpr ⟨hc', ?_⟩
        simp [h]
    have hnil : (backfill_all opts s batchSize none true).conversations.filter
        (fun c => !hasReport (backfill_all opts s batchSize none true) c.id) = [] := by
      rw [List.filter_eq_nil_iff]
      intro c hc
      simp [hall c hc]
    conv_lhs => rw [backfill_all]
    simp only [if_true, hnil, List.foldl_nil]
  exact ⟨congrArg ProcessorStore.segments hfix, congrArg ProcessorStore.reports hfix⟩

/-- A concrete store: two conversations, neither analyzed yet. -/
def exStore : ProcessorStore :=
  { conversations := [⟨1, []⟩, ⟨2, []⟩], segments := [], reports := [] }

/-- Counterexample to C9 as stated for arbitrary parameters: with
`max_chats = 1`, the first `backfill_all(skip_existing=true)` run analyzes
only conversation 1, and the second run analyzes conversation 2, changing
the persisted reports. -/
theorem claim_C9_counterexample :
    (backfill_all defaultOptions
        (backfill_all defaultOptions exStore 50 (some 1) true) 50 (some 1) true).reports
      ≠ (backfill_all defaultOptions exStore 50 (some 1) true).reports := by
  intro h
  exact absurd (congrArg List.length h) (by decide)

/-! ### Cross-chat linking lemmas (C8) -/

/-- Membership through descending insertion. -/
lemma mem_insertBySim (x y : Int × ℚ) :
    ∀ l : List (Int × ℚ), (y ∈ insertBySim x l ↔ y = x ∨ y ∈ l)
  | [] => by simp [insertBySim]
  | z :: zs => by
    rw [insertBySim]
    by_cases h : (z.2 ≤ x.2)
    · rw [if_pos (by simp [h])]
      simp [List.mem_cons]
    · rw [if_neg (by simp [h])]
      rw [List.mem_cons, mem_insertBySim x y zs, List.mem_cons]
      tauto

/-- Membership through descending sorting. -/
lemma mem_sortBySimDesc (y : Int × ℚ) :
    ∀ l : List (Int × ℚ), (y ∈ sortBySimDesc l ↔ y ∈ l)
  | [] => by simp [sortBySimDesc]
  | x :: xs => by
    simp [sortBySimDesc, mem_insertBySim, mem_sortBySimDesc y xs]

/-- Descending insertion preserves the non-increasing order. -/
lemma pairwise_insertBySim (x : Int × ℚ) :
    ∀ l : List (Int × ℚ), l.Pairwise (fun a b => b.2 ≤ a.2) →
      (insertBySim x l).Pairwise (fun a b => b.2 ≤ a.2)
  | [], _ => by simp [insertBySim]
  | z :: zs, h => by
    rcases List.pairwise_cons.mp h with ⟨hz, hzs⟩
    by_cases hle : (z.2 ≤ x.2)
    · rw [insertBySim, if_pos (by simpa using hle)]
      refine List.pairwise_cons.mpr ⟨?_, h⟩
      intro b hb
      rcases List.mem_cons.mp hb with rfl | hb'
      · exact hle
      · exact le_trans (hz b hb') hle
    · rw [insertBySim, if_neg (by simpa using hle)]
      refine List.pairwise_cons.mpr ⟨?_, pairwise_insertBySim x zs hzs⟩
      intro b hb
      rcases (mem_insertBySim x b zs).mp hb with rfl | hb'
      · exact le_of_not_le hle
      · exact hz b hb'

/-- The descending sort is non-increasing in similarity. -/
lemma pairwise_sortBySimDesc :
    ∀ l : List (Int × ℚ), (sortBySimDesc l).Pairwise (fun a b => b.2 ≤ a.2)
  | [] => by simp [sortBySimDesc]
  | x :: xs => pairwise_insertBySim x (sortBySimDesc xs) (pairwise_sortBySimDesc xs)

/-- C8: `find_related_chats` never reports the queried conversation itself,
and its results are sorted non-increasingly by similarity. -/
theorem claim_C8 (segs : List Segment) (cid : Int) (minSimilarity : ℚ) (limit : Nat) :
    (∀ p ∈ find_related_chats segs cid minSimilarity limit, p.1 ≠ cid) ∧
    (find_related_chats segs cid minSimilarity limit).Pairwise
      (fun a b => b.2 ≤ a.2) := by
  constructor
  · intro p hp
    have h1 : p ∈ sortBySimDesc
        (((((segs.filter (fun s => s.chat_id != cid)).map (fun s => s.chat_id)).dedup).map
            (fun oid => (oid, chatSimilarity segs cid oid))).filter
          (fun p => decide (minSimilarity ≤ p.2))) := List.mem_of_mem_take hp
    have h2 := (mem_sortBySimDesc p _).mp h1
    have h3 := (List.mem_filter.mp h2).1
    obtain ⟨oid, hoid, hpo⟩ := List.mem_map.mp h3
    have hne : oid ≠ cid := by
      have := List.mem_dedup.mp hoid
      obtain ⟨sgm, hsg, hid⟩ := List.mem_map.mp this
      have hpred := (List.mem_filter.mp hsg).2
      rw [← hid]
      simpa using hpred
    rw [← hpo]
    exact hne
  · exact List.Pairwise.sublist (List.take_sublist _ _) (pairwise_sortBySimDesc _)

/-- Concrete persisted segments for two conversations. -/
def exSegs : List Segment :=
  [⟨"a", 1, 0, 0, [], "", "", none, 0⟩, ⟨"b", 2, 0, 0, [], "", "", none, 0⟩]

/-- Witness for C8: conversation 2 is reported as related to conversation 1,
and conversation 1 never reports itself. -/
theorem claim_C8_witness :
    ((2 : Int), chatSimilarity exSegs 1 2).1 ≠ 1 :=
  (claim_C8 exSegs 1 0 10).1 (2, chatSimilarity exSegs 1 2) (by decide)

/-! ### Score-range lemmas (C5) -/

/-- Boolean check that a score lies in `[0,1]`. -/
def inUnit (x : ℚ) : Bool := decide (0 ≤ x) && decide (x ≤ 1)

/-- Boolean check that an optional score, when present, lies in `[0,1]`. -/
def optInUnit : Option ℚ → Bool
  | none => true
  | some x => inUnit x

/-- Boolean check that every score a report carries — the overall score, each
present component score, and every segment's divergence score — lies in
`[0,1]`. -/
def reportScoresBounded (r : DivergenceReport) : Bool :=
  inUnit r.overall_score && optInUnit r.embedding_drift_score
    && optInUnit r.topic_entropy_score && optInUnit r.topic_transition_score
    && optInUnit r.llm_relevance_score
    && r.segments.all (fun s => inUnit s.divergence_score)

lemma inUnit_iff (x : ℚ) : inUnit x = true ↔ 0 ≤ x ∧ x ≤ 1 := by simp [inUnit]

lemma clamp01_bounds (x : ℚ) : 0 ≤ clamp01 x ∧ clamp01 x ≤ 1 := by
  unfold clamp01
  refine ⟨le_max_left 0 _, max_le (by norm_num) (min_le_left 1 x)⟩

lemma meanQ_bounds (l : List ℚ) (h : ∀ x ∈ l, 0 ≤ x ∧ x ≤ 1) :
    0 ≤ meanQ l ∧ meanQ l ≤ 1 := by
  unfold meanQ
  by_cases hl : l.length = 0
  · simp [hl]
  · rw [if_neg hl]
    have hpos : (0:ℚ) < (l.length : ℚ) := by
      exact_mod_cast Nat.pos_of_ne_zero hl
    have hsum0 : 0 ≤ l.sum := List.sum_nonneg (fun x hx => (h x hx).1)
    have hsum1 : l.sum ≤ (l.length : ℚ) := by
      have := List.sum_le_card_nsmul l 1 (fun x hx => (h x hx).2)
      simpa [nsmul_eq_mul] using this
    exact ⟨div_nonneg hsum0 (le_of_lt hpos), (div_le_one hpos).mpr hsum1⟩

lemma driftCurve_bounds (opts : SegmenterOptions) (msgs : List ChatMessage) :
    ∀ x ∈ driftCurve opts msgs, 0 ≤ x ∧ x ≤ 1 := by
  intro x hx
  obtain ⟨m, _, hxm⟩ := List.mem_map.mp hx
  rw [← hxm]
  exact clamp01_bounds _

lemma spanDriftVals_bounds (opts : SegmenterOptions) (msgs : List ChatMessage) (a b : Int) :
    ∀ x ∈ spanDriftVals opts msgs a b, 0 ≤ x ∧ x ≤ 1 := by
  intro x hx
  obtain ⟨p, hp, hpx⟩ := List.mem_map.mp hx
  have hz := (List.mem_filter.mp hp).1
  have hmem : p.2 ∈ driftCurve opts msgs := (List.of_mem_zip hz).2
  rw [← hpx]
  exact driftCurve_bounds opts msgs p.2 hmem

lemma compositeScore_bounds (d e t : ℚ) (r : Option ℚ)
    (hd : 0 ≤ d ∧ d ≤ 1) (he : 0 ≤ e ∧ e ≤ 1) (ht : 0 ≤ t ∧ t ≤ 1)
    (hr : ∀ x, r = some x → 0 ≤ x ∧ x ≤ 1) :
    0 ≤ compositeScore d e t r ∧ compositeScore d e t r ≤ 1 := by
  obtain ⟨hd0, hd1⟩ := hd
  obtain ⟨he0, he1⟩ := he
  obtain ⟨ht0, ht1⟩ := ht
  cases r with
  | none =>
    rw [compositeScore_none]
    constructor <;> linarith
  | some x =>
    obtain ⟨hx0, hx1⟩ := hr x rfl
    rw [compositeScore_some]
    constructor <;> linarith

lemma localDivergenceScore_bounds (opts : SegmenterOptions) (msgs : List ChatMessage)
    (topic : Option TopicModelResult) (llm : Option LlmJudgeResult) (a b : Int) :
    0 ≤ localDivergenceScore opts msgs topic llm a b ∧
      localDivergenceScore opts msgs topic llm a b ≤ 1 := by
  unfold localDivergenceScore
  apply compositeScore_bounds
  · exact meanQ_bounds _ (spanDriftVals_bounds opts msgs a b)
  · exact clamp01_bounds _
  · exact clamp01_bounds _
  · intro x hx
    cases llm with
    | none => simp at hx
    | some l =>
      simp only [Option.map_some'] at hx
      injection hx with hx'
      rw [← hx']
      exact clamp01_bounds _

/-- Every segment the cut list produces comes from the span builder. -/
lemma mem_segmentsFromCuts (f : Int → Int → Segment) :
    ∀ (l : List Int) (s : Segment), s ∈ segmentsFromCuts f l → ∃ a b, s = f a b
  | [], s, hs => by simp [segmentsFromCuts] at hs
  | [a], s, hs => by simp [segmentsFromCuts] at hs
  | a :: b :: rest, s, hs => by
    rw [segmentsFromCuts] at hs
    rcases List.mem_cons.mp hs with rfl | hs'
    · exact ⟨a, b - 1, rfl⟩
    · exact mem_segmentsFromCuts f (b :: rest) s hs'

/-! ### Sorted-cut lemmas -/

lemma mem_insertSorted (x y : Int) :
    ∀ l : List Int, (y ∈ insertSorted x l ↔ y = x ∨ y ∈ l)
  | [] => by simp [insertSorted]
  | z :: zs => by
    rw [insertSorted]
    by_cases h1 : x < z
    · rw [if_pos h1]
      simp [List.mem_cons]
    · rw [if_neg h1]
      by_cases h2 : x = z
      · rw [if_pos h2]
        subst h2
        simp [List.mem_cons]
      · rw [if_neg h2]
        rw [List.mem_cons, mem_insertSorted x y zs, List.mem_cons]
        tauto

lemma pairwise_insertSorted (x : Int) :
    ∀ l : List Int, l.Pairwise (fun a b => a < b) →
      (insertSorted x l).Pairwise (fun a b => a < b)
  | [], _ => by simp [insertSorted]
  | z :: zs, h => by
    rcases List.pairwise_cons.mp h with ⟨hz, hzs⟩
    rw [insertSorted]
    by_cases h1 : x < z
    · rw [if_pos h1]
      refine List.pairwise_cons.mpr ⟨?_, h⟩
      intro b hb
      rcases List.mem_cons.mp hb with rfl | hb'
      · exact h1
      · exact lt_trans h1 (hz b hb')
    · rw [if_neg h1]
      by_cases h2 : x = z
      · rw [if_pos h2]
        exact h
      · rw [if_neg h2]
        refine List.pairwise_cons.mpr ⟨?_, pairwise_insertSorted x zs hzs⟩
        intro b hb
        rcases (mem_insertSorted x b zs).mp hb with rfl | hb'
        · omega
        · exact hz b hb'

lemma pairwise_foldr_insertSorted :
    ∀ l : List Int, (l.foldr insertSorted []).Pairwise (fun a b => a < b)
  | [] => by simp
  | x :: xs => by
    rw [List.foldr_cons]
    exact pairwise_insertSorted x _ (pairwise_foldr_insertSorted xs)

lemma pairwise_sortDedup (l : List Int) : (sortDedup l).Pairwise (fun a b => a < b) :=
  pairwise_foldr_insertSorted l

lemma pairwise_interiorCuts (n : Int) (bs : List Int) :
    (interiorCuts n bs).Pairwise (fun a b => a < b) :=
  List.Pairwise.sublist (List.filter_sublist _) (pairwise_sortDedup bs)

lemma mem_interiorCuts (n : Int) (bs : List Int) :
    ∀ b ∈ interiorCuts n bs, 0 < b ∧ b < n := by
  intro b hb
  have hp := (List.mem_filter.mp hb).2
  simpa using hp

/-- The segments of any report are produced from a sorted interior cut
list bounded by the conversation length. -/
lemma compute_segments_shape (opts : SegmenterOptions) (cid : Int) (msgs : List ChatMessage)
    (topic : Option TopicModelResult) (llm : Option LlmJudgeResult) :
    ∃ I : List Int,
      (compute opts cid msgs topic llm).segments =
        segmentsFromCuts (mkSegment opts cid msgs topic llm)
          (0 :: I ++ [(msgs.length : Int)]) ∧
      I.Pairwise (fun a b => a < b) ∧
      (∀ b ∈ I, 0 < b ∧ b < (msgs.length : Int)) := by
  by_cases h : msgs.length < opts.anchor_window
  · exact ⟨[], by simp [compute, h], by simp, by simp⟩
  · refine ⟨interiorCuts (msgs.length : Int) (confirmedBoundaries opts.vote_threshold
      (driftChangepoints opts msgs) ((topic.map (fun t => t.transitions)).getD [])
      (llm.map (fun l => l.suggested_breaks))), ?_, pairwise_interiorCuts _ _,
      mem_interiorCuts _ _⟩
    simp [compute, h]

/-- C5: every score a report carries — `overall_score`, each present
component score, and every segment's `divergence_score` — lies in `[0,1]`. -/
theorem claim_C5 (opts : SegmenterOptions) (cid : Int) (msgs : List ChatMessage)
    (topic : Option TopicModelResult) (llm : Option LlmJudgeResult) :
    reportScoresBounded (compute opts cid msgs topic llm) = true := by
  have hsegs : (compute opts cid msgs topic llm).segments.all
      (fun s => inUnit s.divergence_score) = true := by
    rw [List.all_eq_true]
    intro s hs
    obtain ⟨I, hI, _, _⟩ := compute_segments_shape opts cid msgs topic llm
    rw [hI] at hs
    obtain ⟨a, b, rfl⟩ := mem_segmentsFromCuts _ _ s hs
    rw [inUnit_iff]
    exact localDivergenceScore_bounds opts msgs topic llm a b
  have hopt : ∀ (g : TopicModelResult → ℚ) (o : Option TopicModelResult),
      optInUnit (o.map (fun t => clamp01 (g t))) = true := by
    intro g o
    cases o with
    | none => rfl
    | some t =>
      simp only [Option.map_some', optInUnit]
      rw [inUnit_iff]
      exact clamp01_bounds _
  by_cases h : msgs.length < opts.anchor_window
  · simp only [reportScoresBounded, Bool.and_eq_true]
    refine ⟨⟨⟨⟨⟨?_, ?_⟩, ?_⟩, ?_⟩, ?_⟩, hsegs⟩ <;> simp [compute, h, optInUnit, inUnit]
  · have hds := meanQ_bounds (driftCurve opts msgs) (driftCurve_bounds opts msgs)
    have hov := compositeScore_bounds (embeddingDriftScoreOf opts msgs)
      (clamp01 ((topic.map (fun t => t.topic_entropy)).getD 0))
      (clamp01 ((topic.map (fun t => t.transition_rate)).getD 0))
      (llm.map (fun l => clamp01 l.mean_relevance))
      hds (clamp01_bounds _) (clamp01_bounds _)
      (fun x hx => by
        cases llm with
        | none => simp at hx
        | some l =>
          simp only [Option.map_some'] at hx
          injection hx with hx'
          rw [← hx']
          exact clamp01_bounds _)
    have hov_eq : (compute opts cid msgs topic llm).overall_score =
        compositeScore (embeddingDriftScoreOf opts msgs)
          (clamp01 ((topic.map (fun t => t.topic_entropy)).getD 0))
          (clamp01 ((topic.map (fun t => t.transition_rate)).getD 0))
          (llm.map (fun l => clamp01 l.mean_relevance)) := by
      simp [compute, h]
    have hdrift_eq : (compute opts cid msgs topic llm).embedding_drift_score =
        some (embeddingDriftScoreOf opts msgs) := by
      simp [compute, h]
    have hent_eq : (compute opts cid msgs topic llm).topic_entropy_score =
        topic.map (fun t => clamp01 t.topic_entropy) := by
      simp [compute, h]
    have htr_eq : (compute opts cid msgs topic llm).topic_transition_score =
        topic.map (fun t => clamp01 t.transition_rate) := by
      simp [compute, h]
    have hrel_eq : (compute opts cid msgs topic llm).llm_relevance_score =
        llm.map (fun l => clamp01 l.mean_relevance) := by
      simp [compute, h]
    simp only [reportScoresBounded, Bool.and_eq_true]
    refine ⟨⟨⟨⟨⟨?_, ?_⟩, ?_⟩, ?_⟩, ?_⟩, hsegs⟩
    · rw [hov_eq, inUnit_iff]
      exact hov
    · rw [hdrift_eq]
      simp only [optInUnit]
      rw [inUnit_iff]
      exact hds
    · rw [hent_eq]
      exact hopt (fun t => t.topic_entropy) topic
    · rw [htr_eq]
      exact hopt (fun t => t.transition_rate) topic
    · rw [hrel_eq]
      cases llm with
      | none => rfl
      | some l =>
        simp only [Option.map_some', optInUnit]
        rw [inUnit_iff]
        exact clamp01_bounds _

/-! ### Partition lemmas (C1) -/

section PartitionLemmas

/-- A predicate on the span builder: it records its endpoints verbatim. -/
def RecordsSpan (f : Int → Int → Segment) : Prop :=
  ∀ a b, (f a b).start_message_idx = a ∧ (f a b).end_message_idx = b

lemma startsLB (f : Int → Int → Segment) (hf : RecordsSpan f) :
    ∀ (l : List Int) (a : Int), (a :: l).Chain' (fun x y => x ≤ y) →
      ∀ s ∈ segmentsFromCuts f (a :: l), a ≤ s.start_message_idx
  | [], _, _, s, hs => by simp [segmentsFromCuts] at hs
  | b :: l', a, hch, s, hs => by
    rw [List.chain'_cons] at hch
    rw [segmentsFromCuts] at hs
    rcases List.mem_cons.mp hs with rfl | hs'
    · rw [(hf a (b-1)).1]
    · exact le_trans hch.1 (startsLB f hf l' b hch.2 s hs')

lemma chainLeLast :
    ∀ (l : List Int) (b n : Int), (b :: (l ++ [n])).Chain' (fun x y => x ≤ y) → b ≤ n
  | [], b, n, h => by
    simp only [List.nil_append] at h
    rw [List.chain'_cons] at h
    exact h.1
  | c :: l', b, n, h => by
    simp only [List.cons_append] at h
    rw [List.chain'_cons] at h
    exact le_trans h.1 (chainLeLast l' c n h.2)

lemma endsUB (f : Int → Int → Segment) (hf : RecordsSpan f) :
    ∀ (l : List Int) (a n : Int), (a :: (l ++ [n])).Chain' (fun x y => x ≤ y) →
      ∀ s ∈ segmentsFromCuts f (a :: (l ++ [n])), s.end_message_idx ≤ n - 1
  | [], a, n, _, s, hs => by
    have hseq : s = f a (n - 1) := by simpa [segmentsFromCuts] using hs
    rw [hseq, (hf a (n-1)).2]
  | b :: l', a, n, h, s, hs => by
    simp only [List.cons_append] at h hs
    rw [List.chain'_cons] at h
    rw [segmentsFromCuts] at hs
    rcases List.mem_cons.mp hs with rfl | hs'
    · rw [(hf a (b-1)).2]
      have hbn : b ≤ n := chainLeLast l' b n h.2
      omega
    · exact endsUB f hf l' b n h.2 s hs'

lemma coverAux (f : Int → Int → Segment) (hf : RecordsSpan f) :
    ∀ (l : List Int) (a n : Int), (a :: (l ++ [n])).Chain' (fun x y => x ≤ y) →
      ∀ i : Int, a ≤ i → i < n →
      ∃! s, s ∈ segmentsFromCuts f (a :: (l ++ [n])) ∧
        s.start_message_idx ≤ i ∧ i ≤ s.end_message_idx
  | [], a, n, _, i, hai, hin => by
    refine ⟨f a (n-1), ⟨?_, ?_, ?_⟩, ?_⟩
    · simp [segmentsFromCuts]
    · rw [(hf a (n-1)).1]
      exact hai
    · rw [(hf a (n-1)).2]
      omega
    · intro y hy
      have hymem := hy.1
      simpa [segmentsFromCuts] using hymem
  | b :: l', a, n, h, i, hai, hin => by
    simp only [List.cons_append] at h ⊢
    rw [List.chain'_cons] at h
    by_cases hib : i < b
    · refine ⟨f a (b-1), ⟨?_, ?_, ?_⟩, ?_⟩
      · rw [segmentsFromCuts]
        exact List.mem_cons_self _ _
      · rw [(hf a (b-1)).1]
        exact hai
      · rw [(hf a (b-1)).2]
        omega
      · intro y hy
        obtain ⟨hymem, hyc1, hyc2⟩ := hy
        rw [segmentsFromCuts] at hymem
        rcases List.mem_cons.mp hymem with rfl | hy'
        · rfl
        · exfalso
          have hb := startsLB f hf (l' ++ [n]) b h.2 y hy'
          omega
    · push_neg at hib
      obtain ⟨s0, hs0, huniq⟩ := coverAux f hf l' b n h.2 i hib hin
      refine ⟨s0, ⟨?_, hs0.2.1, hs0.2.2⟩, ?_⟩
      · rw [segmentsFromCuts]
        exact List.mem_cons_of_mem _ hs0.1
      · intro y hy
        obtain ⟨hymem, hyc1, hyc2⟩ := hy
        rw [segmentsFromCuts] at hymem
        rcases List.mem_cons.mp hymem with rfl | hy'
        · exfalso
          have he := (hf a (b-1)).2
          omega
        · exact huniq y ⟨hy', hyc1, hyc2⟩

lemma chainSegs (f : Int → Int → Segment) (hf : RecordsSpan f) :
    ∀ (l : List Int) (a : Int),
      (segmentsFromCuts f (a :: l)).Chain'
        (fun s t => s.end_message_idx + 1 = t.start_message_idx)
  | [], _ => by simp [segmentsFromCuts]
  | [b], a => by simp [segmentsFromCuts]
  | b :: c :: l', a => by
    have htail := chainSegs f hf (c :: l') b
    rw [segmentsFromCuts, List.chain'_cons']
    refine ⟨?_, htail⟩
    intro y hy
    have hyeq : f b (c-1) = y := by simpa [segmentsFromCuts] using hy
    rw [← hyeq, (hf a (b-1)).2, (hf b (c-1)).1]
    omega

lemma startsMap (f : Int → Int → Segment) (hf : RecordsSpan f) :
    ∀ (l : List Int) (a : Int),
      (segmentsFromCuts f (a :: l)).map (fun s => s.start_message_idx) = (a :: l).dropLast
  | [], a => by simp [segmentsFromCuts]
  | b :: l', a => by
    rw [segmentsFromCuts, List.map_cons, (hf a (b-1)).1, startsMap f hf l' b]
    rfl

end PartitionLemmas

/-- C1: for every analysis run, the report's segments are ordered by start
index, contiguous, and their spans cover every message index in
`[0, num_messages)` exactly once and nothing outside it. -/
theorem claim_C1 (opts : SegmenterOptions) (cid : Int) (msgs : List ChatMessage)
    (topic : Option TopicModelResult) (llm : Option LlmJudgeResult) :
    ((compute opts cid msgs topic llm).segments.Pairwise
      (fun s t => s.start_message_idx < t.start_message_idx)) ∧
    ((compute opts cid msgs topic llm).segments.Chain'
      (fun s t => s.end_message_idx + 1 = t.start_message_idx)) ∧
    (∀ i : Int, 0 ≤ i → i < (msgs.length : Int) →
      ∃! s, s ∈ (compute opts cid msgs topic llm).segments ∧
        s.start_message_idx ≤ i ∧ i ≤ s.end_message_idx) ∧
    (∀ s ∈ (compute opts cid msgs topic llm).segments, ∀ i : Int,
      s.start_message_idx ≤ i → i ≤ s.end_message_idx →
        0 ≤ i ∧ i < (msgs.length : Int)) := by
  obtain ⟨I, hI, hpw, hmem⟩ := compute_segments_shape opts cid msgs topic llm
  have hf : ∀ a b, (mkSegment opts cid msgs topic llm a b).start_message_idx = a ∧
      (mkSegment opts cid msgs topic llm a b).end_message_idx = b := fun a b => ⟨rfl, rfl⟩
  have hn0 : (0:Int) ≤ (msgs.length : Int) := Int.natCast_nonneg _
  have hple : (0 :: I ++ [(msgs.length : Int)]).Pairwise (fun x y => x ≤ y) := by
    refine List.pairwise_cons.mpr ⟨?_, ?_⟩
    · intro x hx
      rcases List.mem_append.mp hx with hx' | hx'
      · exact le_of_lt (hmem x hx').1
      · have hxn : x = (msgs.length : Int) := by simpa using hx'
        rw [hxn]
        exact hn0
    · refine List.pairwise_append.mpr ⟨List.Pairwise.imp (fun h => le_of_lt h) hpw, ?_, ?_⟩
      · simp
      · intro a ha b hb
        have hbn : b = (msgs.length : Int) := by simpa using hb
        rw [hbn]
        exact le_of_lt (hmem a ha).2
  have hch : (0 :: I ++ [(msgs.length : Int)]).Chain' (fun x y => x ≤ y) :=
    List.Pairwise.chain' hple
  have hpw0 : (0 :: I).Pairwise (fun x y => x < y) :=
    List.pairwise_cons.mpr ⟨fun x hx => (hmem x hx).1, hpw⟩
  rw [hI]
  refine ⟨?_, ?_, ?_, ?_⟩
  · have hm := startsMap (mkSegment opts cid msgs topic llm) hf
      (I ++ [(msgs.length : Int)]) 0
    have hdl : ((0 : Int) :: (I ++ [(msgs.length : Int)])).dropLast = 0 :: I := by
      rw [show (0 : Int) :: (I ++ [(msgs.length : Int)])
          = ((0 :: I) ++ [(msgs.length : Int)]) from rfl, List.dropLast_concat]
    rw [hdl] at hm
    rw [← hm] at hpw0
    exact List.pairwise_map.mp hpw0
  · exact chainSegs (mkSegment opts cid msgs topic llm) hf
      (I ++ [(msgs.length : Int)]) 0
  · intro i h0 hlt
    exact coverAux (mkSegment opts cid msgs topic llm) hf I 0 (msgs.length : Int)
      hch i h0 hlt
  · intro s hs i hi1 hi2
    have h1 := startsLB (mkSegment opts cid msgs topic llm) hf
      (I ++ [(msgs.length : Int)]) 0 hch s hs
    have h2 := endsUB (mkSegment opts cid msgs topic llm) hf I 0 (msgs.length : Int)
      hch s hs
    omega

/-- Witness for C1: in the three-message conversation, index 1 is covered by
exactly one segment. -/
theorem claim_C1_witness :
    ∃! s, s ∈ (compute defaultOptions 1 exMsgs none none).segments ∧
      s.start_message_idx ≤ (1 : Int) ∧ (1 : Int) ≤ s.end_message_idx :=
  (claim_C1 defaultOptions 1 exMsgs none none).2.2.1 1 (by decide) (by decide)
